import Mathlib

/-!
Shallow embedding of `poster_bot.py` (a Telegram-to-Blogger publishing bot)
and proofs about its specification claims.

Conventions of the embedding:
* Python strings are Lean `String`s; character-level work uses `List Char`.
* Python regular-expression behaviour (`re.findall`, `re.sub`) for the one URL
  pattern `https?://\S+` is embedded as an explicit left-to-right scanner with
  the same greedy semantics.
* Whitespace is the ASCII whitespace set recognised by Python's `\s` / `str.strip`.
* Side effects (Telegram messages, HTTP calls, file operations) are recorded as
  an explicit effect trace (`Effect`); external outcomes (Google auth, image
  upload, blog insert) are inputs in a `PublishEnv` record, so one function run
  covers one concrete execution path of the Python code.
-/

namespace PosterBot

/-- ASCII whitespace as used by Python's `str.strip` and the regex class `\s`
(the model restricts to the ASCII subset). -/
def pySpace (c : Char) : Bool :=
  c == ' ' || c == '\t' || c == '\n' || c == '\r' || c == '\x0B' || c == '\x0C'

/-- Python `str.strip()` on a character list: drop whitespace from both ends. -/
def stripL (cs : List Char) : List Char :=
  ((cs.dropWhile pySpace).reverse.dropWhile pySpace).reverse

/-- Python `str.strip()` on a `String`. -/
def pyStrip (s : String) : String :=
  String.mk (stripL s.data)

/-- Python `str.lower()` (ASCII model). -/
def pyLower (s : String) : String :=
  String.mk (s.data.map Char.toLower)

/-- Python `str.split(sep)` for a one-character separator, on character lists.
`splitSep sep [] = [[]]`, matching `"".split(sep) == [""]`. -/
def splitSep (sep : Char) : List Char → List (List Char)
  | [] => [[]]
  | c :: rest =>
    match splitSep sep rest with
    | [] => [[]]
    | l :: ls => if c == sep then [] :: l :: ls else (c :: l) :: ls

/-- Boolean list-prefix test (structurally recursive, kernel-evaluable). -/
def prefixB : List Char → List Char → Bool
  | [], _ => true
  | _ :: _, [] => false
  | a :: as, b :: bs => a == b && prefixB as bs

/-- Boolean substring test: Python's `needle in hay` on strings. -/
def infixB (needle : List Char) : List Char → Bool
  | [] => needle.isEmpty
  | c :: rest => prefixB needle (c :: rest) || infixB needle rest

/-! ### The URL regex `https?://\S+`

`matchUrlAt cs` is the regex engine's attempt to match `https?://\S+` at the
start of `cs`: the literal scheme (greedy optional `s`, which on this pattern
reduces to trying the two literal prefixes), then a maximal nonempty run of
non-whitespace characters.  It returns the matched text and the remainder. -/

/-- Attempt to match `https?://\S+` at the head of the character list. -/
def matchUrlAt : List Char → Option (List Char × List Char)
  | 'h' :: 't' :: 't' :: 'p' :: 's' :: ':' :: '/' :: '/' :: r =>
    let body := r.takeWhile (fun c => !pySpace c)
    if body.isEmpty then none
    else some ('h' :: 't' :: 't' :: 'p' :: 's' :: ':' :: '/' :: '/' :: body,
               r.dropWhile (fun c => !pySpace c))
  | 'h' :: 't' :: 't' :: 'p' :: ':' :: '/' :: '/' :: r =>
    let body := r.takeWhile (fun c => !pySpace c)
    if body.isEmpty then none
    else some ('h' :: 't' :: 't' :: 'p' :: ':' :: '/' :: '/' :: body,
               r.dropWhile (fun c => !pySpace c))
  | _ => none

/-- Scanner core for `re.findall(r'https?://\S+', s)`: walk left to right,
emit each leftmost match and continue after it.  `fuel` bounds the recursion;
`fuel = length of the input` always suffices because a match consumes at least
one character. -/
def scanUrlsGo : Nat → List Char → List (List Char)
  | 0, _ => []
  | _ + 1, [] => []
  | fuel + 1, c :: rest =>
    match matchUrlAt (c :: rest) with
    | some (m, r) => m :: scanUrlsGo fuel r
    | none => scanUrlsGo fuel rest

/-- `re.findall(r'https?://\S+', s)` : all URL matches, left to right. -/
def extractUrls (s : String) : List String :=
  (scanUrlsGo s.data.length s.data).map String.mk

/-- Scanner core for `re.sub(r'https?://\S+', '', s)`: same walk, but drop the
matches and keep everything else. -/
def stripUrlsGo : Nat → List Char → List Char
  | 0, s => s
  | _ + 1, [] => []
  | fuel + 1, c :: rest =>
    match matchUrlAt (c :: rest) with
    | some (_, r) => stripUrlsGo fuel r
    | none => c :: stripUrlsGo fuel rest

/-- `re.sub(r'https?://\S+', '', s)` on a character list. -/
def stripUrlsL (cs : List Char) : List Char :=
  stripUrlsGo cs.length cs

/-- The characters of the literal scheme `http://`. -/
def httpPrefix : List Char := ['h', 't', 't', 'p', ':', '/', '/']

/-- The characters of the literal scheme `https://`. -/
def httpsPrefix : List Char := ['h', 't', 't', 'p', 's', ':', '/', '/']

/-- What a single match of `https?://\S+` looks like: a scheme literal
followed by a nonempty run of non-whitespace characters. -/
def urlShape (m : List Char) : Prop :=
  ∃ body, (m = httpPrefix ++ body ∨ m = httpsPrefix ++ body) ∧ body ≠ [] ∧
    ∀ c ∈ body, pySpace c = false

/-- Interleave gap segments with match segments
(`g₀ ++ m₀ ++ g₁ ++ m₁ ++ ⋯ ++ gₙ`); used to state that the matches occur
disjointly, in left-to-right order, inside the scanned text. -/
def alternate (gaps : List (List Char)) (ms : List (List Char)) : List Char :=
  match ms, gaps with
  | [], g :: _ => g
  | [], [] => []
  | m :: ms', g :: gs => g ++ m ++ alternate gs ms'
  | _ :: _, [] => []

/-- Whether the URL regex matches at some position of the text. -/
def anyMatchPos : List Char → Bool
  | [] => false
  | c :: rest => (matchUrlAt (c :: rest)).isSome || anyMatchPos rest

/-- No decomposition of `cs` exhibits a scheme literal as a substring. -/
def schemeFree (cs : List Char) : Prop :=
  ∀ pre suf, cs ≠ pre ++ httpPrefix ++ suf ∧ cs ≠ pre ++ httpsPrefix ++ suf

/-- Declarative greedy match of `https?://\S+` at the start of `cs`, following
the spec's words: the text splits into a URL-shaped match and a remainder that
is empty or starts with whitespace — so the non-whitespace run is maximal and
the match cannot be extended. -/
def urlMatchAt (cs m r : List Char) : Prop :=
  cs = m ++ r ∧ urlShape m ∧
    (r = [] ∨ ∃ c rest, r = c :: rest ∧ pySpace c = true)

/-- Declarative `re.findall` semantics for the URL pattern, modelled from the
spec's words ("every substring matching the URL pattern, in order of first
appearance, duplicates retained"): scan left to right; a position is skipped
only when no greedy match starts there (the negative premise of `gap` makes
the returned list exhaustive), and where a match starts it is emitted and the
scan resumes after it. -/
inductive UrlFindAll : List Char → List (List Char) → Prop where
  | nil : UrlFindAll [] []
  | gap {c : Char} {cs : List Char} {ms : List (List Char)} :
      (∀ m r, ¬ urlMatchAt (c :: cs) m r) → UrlFindAll cs ms →
      UrlFindAll (c :: cs) ms
  | found {cs m r : List Char} {ms : List (List Char)} :
      urlMatchAt cs m r → UrlFindAll r ms → UrlFindAll cs (m :: ms)

/-- The filter comprehension
`[url for url in all_urls if any(domain in url for domain in VALID_LINK_DOMAINS)]`. -/
def filterByAllowlist (urls : List String) (domains : List String) : List String :=
  urls.filter (fun url => domains.any (fun domain => infixB domain.data url.data))

/-! ### Post renderer (`build_blog_post_html`) -/

/-- Python truthiness for an optional string: present and nonempty. -/
def optPresent (o : Option String) : Bool :=
  match o with
  | some s => s != ""
  | none => false

/-- The fixed `style_block` literal of `build_blog_post_html`. -/
def styleBlock : String :=
  "<style>.post-container\x7btext-align:center;font-family:sans-serif;margin:0 auto;max-width:700px;\x7d.post-container img\x7bmax-width:100%;height:auto;border-radius:12px;margin-bottom:20px;box-shadow:0 4px 15px rgba(0,0,0,0.1);\x7d.post-caption\x7bfont-size:1.1em;color:#444;line-height:1.6;padding:0 15px;margin-bottom:25px;text-align:left;\x7d.button-container\x7bmargin-bottom:30px;\x7d.video-button,.social-button\x7bdisplay:inline-block;padding:12px 28px;margin:8px;font-size:16px;font-weight:bold;color:#fff;border:none;border-radius:8px;text-decoration:none;transition:all .2s ease-in-out;box-shadow:0 2px 5px rgba(0,0,0,0.2);\x7d.video-button:hover,.social-button:hover\x7btransform:scale(1.05);box-shadow:0 4px 10px rgba(0,0,0,0.3);\x7d.video-button\x7bbackground-color:#ff4500;\x7d.social-button.telegram\x7bbackground-color:#0088cc;\x7d.social-button.instagram\x7bbackground:#d6249f;background:radial-gradient(circle at 30% 107%,#fdf4C97 0%,#fdf497 5%,#fd5949 45%,#d6249f 60%,#285aeb 90%);\x7d</style>"

/-- One video button anchor, `f'<a href="{url}" class="video-button" target="_blank">🎬 {label}</a>'`. -/
def videoButtonHtml (url : String) (label : String) : String :=
  "<a href=\"" ++ url ++ "\" class=\"video-button\" target=\"_blank\">🎬 " ++ label ++ "</a>"

/-- The `dynamic_buttons_html` accumulation: one unnumbered button for exactly
one link, numbered buttons (enumerate, 1-based) for several, nothing for none. -/
def dynamicButtonsHtml (links_list : List String) : String :=
  if links_list.length == 1 then
    videoButtonHtml (links_list.headD "") "Watch Video"
  else if links_list.length > 1 then
    (links_list.enum).foldl
      (fun acc p => acc ++ videoButtonHtml p.2 ("Watch Video " ++ toString (p.1 + 1))) ""
  else ""

/-- The `footer_buttons_html` accumulation over the two configured links. -/
def footerButtonsHtml (tgLink instaLink : Option String) : String :=
  (if optPresent tgLink then
    "<a href=\"" ++ tgLink.getD "" ++ "\" class=\"social-button telegram\" target=\"_blank\">Join All Channels</a>"
   else "") ++
  (if optPresent instaLink then
    "<a href=\"" ++ instaLink.getD "" ++ "\" class=\"social-button instagram\" target=\"_blank\">Follow on Instagram</a>"
   else "")

/-- The `image_tag` conditional: emitted only when `image_url` is truthy. -/
def imageTag (image_url : Option String) : String :=
  if optPresent image_url then
    "<img src=\"" ++ image_url.getD "" ++ "\" alt=\"Post Image\" />"
  else ""

/-- `build_blog_post_html(image_url, caption_text, links_list)`; the two static
footer links (environment configuration) are explicit arguments.  `os.linesep`
is `"\n"` on the deployment platform. -/
def build_blog_post_html (image_url : Option String) (caption_text : String)
    (links_list : List String) (tgLink instaLink : Option String) : String :=
  styleBlock ++ "<div class=\"post-container\">" ++ imageTag image_url ++
  "<div class=\"post-caption\">" ++ caption_text.replace "\n" "<br>" ++
  "</div><div class=\"button-container\">" ++ dynamicButtonsHtml links_list ++
  "</div><div class=\"footer-container\">" ++ footerButtonsHtml tgLink instaLink ++
  "</div></div>"

/-! ### Caption cleaning (the junk-pattern pipeline of `channel_post_handler`) -/

/-- Lower-case a character list (model of `re.IGNORECASE` comparison). -/
def toLowerL (cs : List Char) : List Char :=
  cs.map Char.toLower

/-- Core of `re.sub(pat, '', s, flags=re.IGNORECASE)` for a literal pattern:
replace every non-overlapping occurrence (case-insensitive), left to right. -/
def subLitGo (pat : List Char) : Nat → List Char → List Char
  | 0, s => s
  | _ + 1, [] => []
  | fuel + 1, c :: rest =>
    if !pat.isEmpty && (toLowerL ((c :: rest).take pat.length) == toLowerL pat) then
      subLitGo pat fuel ((c :: rest).drop pat.length)
    else c :: subLitGo pat fuel rest

/-- `re.sub(pat, '', s, flags=re.IGNORECASE)` for a literal pattern. -/
def subLitCI (pat : List Char) (s : List Char) : List Char :=
  subLitGo pat s.length s

/-- The lowered literal head of the junk pattern `r'\(BY - @\S+\)'`. -/
def byPatHead : List Char := "(by - @".data

/-- Index of the last `')'` at position ≥ 1 inside the greedy `\S+` run
(the regex backtracks from the longest run to the final closing paren). -/
def lastCloseParen (run : List Char) : Option Nat :=
  (run.enum.filterMap (fun p => if p.2 == ')' && decide (1 ≤ p.1) then some p.1 else none)).getLast?

/-- Attempt to match `\(BY - @\S+\)` (ignore-case) at the head; returns the
remainder after the match. -/
def matchByAt (cs : List Char) : Option (List Char) :=
  if toLowerL (cs.take 7) == byPatHead then
    let r := cs.drop 7
    match lastCloseParen (r.takeWhile (fun c => !pySpace c)) with
    | some j => some (r.drop (j + 1))
    | none => none
  else none

/-- Core of `re.sub(r'\(BY - @\S+\)', '', s, flags=re.IGNORECASE)`. -/
def subByGo : Nat → List Char → List Char
  | 0, s => s
  | _ + 1, [] => []
  | fuel + 1, c :: rest =>
    match matchByAt (c :: rest) with
    | some rem => subByGo fuel rem
    | none => c :: subByGo fuel rest

/-- `re.sub(r'\(BY - @\S+\)', '', s, flags=re.IGNORECASE)`. -/
def subByPat (s : List Char) : List Char :=
  subByGo s.length s

/-- `clean_caption`: strip URLs, `strip()`, then remove each junk pattern in
the order of the `junk_patterns` list. -/
def cleanCaptionL (full : List Char) : List Char :=
  subByPat
    (subLitCI "👉".data
      (subLitCI "👇".data
        (subLitCI "full video link".data
          (subLitCI "watch online".data
            (subLitCI "join my channel".data
              (stripL (stripUrlsL full)))))))

/-- `main_caption`: nonempty stripped lines of the clean caption, re-joined
with newlines. -/
def mainCaptionOf (full_caption : String) : String :=
  String.mk
    (List.intercalate ['\n']
      (((splitSep '\n' (cleanCaptionL full_caption.data)).map stripL).filter (fun l => l != [])))

/-- `main_caption.split('\n')[0].strip()` (the derived title). -/
def firstLineStrip (s : String) : String :=
  String.mk (stripL ((splitSep '\n' s.data).headD []))

/-- Lexicographic (code-point) comparison of character lists, as Python
compares strings. -/
def lexLeB : List Char → List Char → Bool
  | [], _ => true
  | _ :: _, [] => false
  | a :: as, b :: bs => if a < b then true else if b < a then false else lexLeB as bs

/-- String comparison used by Python's `sorted`. -/
def strLeB (a b : String) : Bool :=
  lexLeB a.data b.data

/-- Insert into a sorted list (model of `sorted`, element step). -/
def insertSorted (x : String) : List String → List String
  | [] => [x]
  | y :: ys => if strLeB x y then x :: y :: ys else y :: insertSorted x ys

/-- `sorted(list(domains_set))`: any comparison sort; on a duplicate-free list
with a total order the result is unique, so insertion sort is a faithful model. -/
def sortStrings : List String → List String
  | [] => []
  | x :: xs => insertSorted x (sortStrings xs)

/-! ### Remote publish orchestrator (`process_and_publish_post`)

External outcomes are inputs (`PublishEnv`); the function returns the effect
trace of one run.  `uploadRaises`/`insertRaises` model an exception escaping
the corresponding step of the `try` body (any such exception is caught by the
outer `except` and routed through the same error path); an upload that fails
with a caught `requests.RequestException`, returns a non-success payload, or
is skipped for lack of an API key is `uploadResult = none`. -/

/-- Outcomes of the external collaborators for one orchestrator run. -/
structure PublishEnv where
  serviceOk : Bool
  uploadRaises : Bool
  uploadResult : Option String
  insertRaises : Bool
  fileExists : Bool

/-- Audit-log messages (`send_log` call sites), with the interpolated data
kept and the surrounding formatting abstracted. -/
inductive LogEvent where
  | serviceBuildFailed (source : String)
  | publishSuccess (source title userName : String)
  | publishError (source title : String)
  | autoStep1 (chatTitle : String) (chatId : Int)
  | autoIgnoredNotSource (chatId : Int)
  | autoIgnoredNoMedia (chatTitle : String)
  | autoStep2Passed
  | autoIgnoredNoUrls
  | autoStep3Urls (urls : List String)
  | autoStep4Checking (domains : List String)
  | autoIgnoredNoValidUrls
  | autoStep5Valid (urls : List String)
  | autoFallbackTitle (title : String)
  deriving DecidableEq

/-- One observable side effect of the bot. -/
inductive Effect where
  | log (m : LogEvent)
  | sendMessage (chatId : Int) (text : String)
  | uploadImage (path : String)
  | insertPost (title : String) (content : String)
  | removeFile (path : String)
  | downloadTemp (path : String)
  deriving DecidableEq

/-- Recognise a file-removal effect. -/
def isRemoveFx : Effect → Bool
  | .removeFile _ => true
  | _ => false

/-- Recognise a blog-API create-post call. -/
def isInsertFx : Effect → Bool
  | .insertPost _ _ => true
  | _ => false

/-- Recognise a temp-file download. -/
def isDownloadFx : Effect → Bool
  | .downloadTemp _ => true
  | _ => false

/-- The guarded operator notification
`if source == 'manual' and chat_id: context.bot.send_message(...)`. -/
def manualNote (source : String) (chat_id : Option Int) (text : String) : List Effect :=
  match chat_id with
  | some cid => if source == "manual" then [Effect.sendMessage cid text] else []
  | none => []

/-- The `try`/`except` body of `process_and_publish_post` (everything up to,
but not including, the `finally` block). -/
def publishAttemptFx (env : PublishEnv) (tgLink instaLink : Option String)
    (title caption_text : String) (photo_path : Option String)
    (links_list : List String) (user_name source : String) (chat_id : Option Int) :
    List Effect :=
  let publishCore : Option String → List Effect := fun image_url =>
    let body_html := build_blog_post_html image_url caption_text links_list tgLink instaLink
    Effect.insertPost title body_html ::
      (if env.insertRaises then
        Effect.log (LogEvent.publishError source title) ::
          manualNote source chat_id "An unexpected error occurred."
      else
        Effect.log (LogEvent.publishSuccess source title user_name) ::
          manualNote source chat_id ("Success! Post \x27" ++ title ++ "\x27 published."))
  if env.serviceOk then
    match photo_path, env.fileExists with
    | some p, true =>
      Effect.uploadImage p ::
        (if env.uploadRaises then
          Effect.log (LogEvent.publishError source title) ::
            manualNote source chat_id "An unexpected error occurred."
        else
          match env.uploadResult with
          | none => manualNote source chat_id "Error: Failed to upload image."
          | some u => publishCore (some u))
    | some _, false => publishCore none
    | none, _ => publishCore none
  else
    Effect.log (LogEvent.serviceBuildFailed source) ::
      manualNote source chat_id "Error: Could not connect to Google."

/-- `process_and_publish_post`: the full `try/except/finally` structure.  The
`finally` block deletes the temp file when the path is set and the file
exists; every other branch only logs, messages, uploads or inserts. -/
def process_and_publish_post (env : PublishEnv) (tgLink instaLink : Option String)
    (title caption_text : String) (photo_path : Option String)
    (links_list : List String) (user_name source : String) (chat_id : Option Int) :
    List Effect :=
  publishAttemptFx env tgLink instaLink title caption_text photo_path links_list
      user_name source chat_id ++
    (match photo_path with
     | some p => if env.fileExists then [Effect.removeFile p] else []
     | none => [])

/-! ### Automated channel filter pipeline (`channel_post_handler`) -/

/-- The fields of a Telegram channel post the handler inspects.  `photoFileIds`
models `post.photo` (possibly several size variants, empty when absent);
`videoThumbFileId` models `post.video` with its thumbnail file id. -/
structure ChannelPost where
  chatId : Int
  chatTitle : Option String
  photoFileIds : List String
  videoThumbFileId : Option String
  caption : Option String

/-- Truthiness of `post.photo or post.video`. -/
def hasMedia (post : ChannelPost) : Bool :=
  !post.photoFileIds.isEmpty || post.videoThumbFileId.isSome

/-- An inbound update as the handler sees it (`update.channel_post`). -/
structure TgUpdate where
  channelPost : Option ChannelPost

/-- How one invocation of the channel handler ended. -/
inductive HandlerResult where
  | noChannelPost
  | rejectedNotSource
  | rejectedNoMedia
  | rejectedNoUrls
  | rejectedNoValidUrls
  | published (title : String) (validUrls : List String)
  deriving DecidableEq

/-- `channel_post_handler`: the four-step filter pipeline, then caption
cleanup, temp download and the shared publish orchestrator. -/
def channel_post_handler (ids : List Int) (domains : List String) (env : PublishEnv)
    (tgLink instaLink : Option String) (u : TgUpdate) : HandlerResult × List Effect :=
  match u.channelPost with
  | none => (HandlerResult.noChannelPost, [])
  | some post =>
    let chat_title :=
      match post.chatTitle with
      | some t => t
      | none => "ID:" ++ toString post.chatId
    let fx1 := [Effect.log (LogEvent.autoStep1 chat_title post.chatId)]
    if post.chatId ∉ ids then
      (HandlerResult.rejectedNotSource, fx1 ++ [Effect.log (LogEvent.autoIgnoredNotSource post.chatId)])
    else if !hasMedia post then
      (HandlerResult.rejectedNoMedia, fx1 ++ [Effect.log (LogEvent.autoIgnoredNoMedia chat_title)])
    else
      let full_caption := post.caption.getD ""
      let all_urls := extractUrls full_caption
      let fx2 := fx1 ++ [Effect.log LogEvent.autoStep2Passed]
      if all_urls = [] then
        (HandlerResult.rejectedNoUrls, fx2 ++ [Effect.log LogEvent.autoIgnoredNoUrls])
      else
        let valid_urls := filterByAllowlist all_urls domains
        let fx3 := fx2 ++ [Effect.log (LogEvent.autoStep3Urls all_urls),
                           Effect.log (LogEvent.autoStep4Checking (sortStrings domains))]
        if valid_urls = [] then
          (HandlerResult.rejectedNoValidUrls, fx3 ++ [Effect.log LogEvent.autoIgnoredNoValidUrls])
        else
          let fx4 := fx3 ++ [Effect.log (LogEvent.autoStep5Valid valid_urls)]
          let file_id :=
            match post.videoThumbFileId with
            | some t => t
            | none => post.photoFileIds.getLastD ""
          let main_caption := mainCaptionOf full_caption
          let titleFx :=
            if main_caption = "" then
              let t := "New Post from " ++ chat_title
              (t, fx4 ++ [Effect.log (LogEvent.autoFallbackTitle t)])
            else (firstLineStrip main_caption, fx4)
          let photo_path := "temp_" ++ file_id ++ ".jpg"
          (HandlerResult.published titleFx.1 valid_urls,
            titleFx.2 ++ [Effect.downloadTemp photo_path] ++
              process_and_publish_post env tgLink instaLink titleFx.1 main_caption
                (some photo_path) valid_urls ("Channel \x27" ++ chat_title ++ "\x27")
                "automation" none)

/-- The dispatcher registration for the automated path:
`MessageHandler((Filters.photo | Filters.video) & Filters.chat_type.channel, channel_post_handler)`.
The handler is invoked only for channel posts that carry a photo or a video;
other updates never reach it (the conversation handler does not match channel
posts, which have no originating user).  Returns `none` when no handler runs. -/
def channelDispatch (ids : List Int) (domains : List String) (env : PublishEnv)
    (tgLink instaLink : Option String) (u : TgUpdate) :
    Option (HandlerResult × List Effect) :=
  match u.channelPost with
  | some post =>
    if hasMedia post then some (channel_post_handler ids domains env tgLink instaLink u)
    else none
  | none => none

/-! ### Domain allowlist store (`load_domains` / `save_domains`) -/

/-- Character-level core of `load_domains`: stripped nonempty lines of the
storage content, duplicates removed (set semantics). -/
def loadLines (content : String) : List (List Char) :=
  (((splitSep '\n' content.data).map stripL).filter (fun l => l != [])).dedup

/-- `load_domains` reading existing storage: the set of stripped nonempty
lines (`{line.strip() for line in f if line.strip()}`), as a duplicate-free
list. -/
def load_domains (content : String) : List String :=
  (loadLines content).map (fun l => String.mk l)

/-- `save_domains`: one domain per line, sorted ascending, each line
newline-terminated. -/
def save_domains (domains : List String) : String :=
  String.mk (((sortStrings domains).map (fun d => d.data ++ ['\n'])).flatten)

/-! ### Source-channel id parsing -/

/-- Numeric value of a decimal digit string (Python `int` on a digit token). -/
def natOfDigits (cs : List Char) : Nat :=
  cs.foldl (fun n c => 10 * n + (c.toNat - '0'.toNat)) 0

/-- Python `str.isdigit` (ASCII model): nonempty and all decimal digits. -/
def pyIsDigit (cs : List Char) : Bool :=
  !cs.isEmpty && cs.all Char.isDigit

/-- `SOURCE_CHANNEL_IDS = [int(x.strip()) for x in s.split(',') if x.strip().isdigit()]`. -/
def parseSourceChannelIds (s : String) : List Int :=
  (splitSep ',' s.data).filterMap (fun tok =>
    let t := stripL tok
    if pyIsDigit t then some ((natOfDigits t : Nat) : Int) else none)

/-! ### Admin command surface -/

/-- Replies sent, resulting domain list, and whether storage was rewritten. -/
structure CmdOutcome where
  replies : List String
  domains : List String
  saved : Bool
  deriving DecidableEq

/-- `/addsite`: silently ignored unless the sender is the configured admin. -/
def add_site (adminId senderId : String) (args : List String) (domains : List String) :
    CmdOutcome :=
  if senderId ≠ adminId then ⟨[], domains, false⟩
  else
    match args with
    | [] => ⟨["Usage: /addsite <domain.com>"], domains, false⟩
    | a :: _ =>
      let domain_to_add := pyStrip (pyLower a)
      if domain_to_add ∈ domains then
        ⟨["✅ Domain \x27" ++ domain_to_add ++ "\x27 is already in the list."], domains, false⟩
      else
        ⟨["✅ Domain \x27" ++ domain_to_add ++ "\x27 added successfully."],
          domains ++ [domain_to_add], true⟩

/-- `/removesite`: silently ignored unless the sender is the configured admin. -/
def remove_site (adminId senderId : String) (args : List String) (domains : List String) :
    CmdOutcome :=
  if senderId ≠ adminId then ⟨[], domains, false⟩
  else
    match args with
    | [] => ⟨["Usage: /removesite <domain.com>"], domains, false⟩
    | a :: _ =>
      let domain_to_remove := pyStrip (pyLower a)
      if domain_to_remove ∈ domains then
        ⟨["✅ Domain \x27" ++ domain_to_remove ++ "\x27 removed successfully."],
          domains.erase domain_to_remove, true⟩
      else
        ⟨["❌ Domain \x27" ++ domain_to_remove ++ "\x27 not found."], domains, false⟩

/-- `/listsites`: silently ignored unless the sender is the configured admin. -/
def list_sites (adminId senderId : String) (domains : List String) : CmdOutcome :=
  if senderId ≠ adminId then ⟨[], domains, false⟩
  else if domains = [] then
    ⟨["The list of allowed domains is empty."], domains, false⟩
  else
    ⟨["📝 **Currently Allowed Domains:**\n\n<code>" ++
        String.intercalate "\n" (sortStrings domains) ++ "</code>"], domains, false⟩

/-- The unconditional part of the `/help` reply. -/
def helpText : String :=
  "Hello! I am your Blogger Poster Bot.\n\n**User Commands:**\n/start - Manually create a new post.\n/cancel - Stop the current posting process.\n/help - Show this message."

/-- The admin-only tail of the `/help` reply. -/
def adminHelpText : String :=
  "\n\n**Admin Commands:**\n/addsite `<domain.com>`\n/removesite `<domain.com>`\n/listsites"

/-- `/help`: replies to every sender; the admin section is appended only for
the configured admin identity. -/
def help_command (adminId senderId : String) : List String :=
  [if senderId = adminId then helpText ++ adminHelpText else helpText]

/-! ## Supporting lemmas -/

lemma mk_data (s : String) : String.mk s.data = s := by
  cases s
  rfl

lemma manualNote_filter_isRemoveFx (source : String) (chat_id : Option Int) (t : String) :
    (manualNote source chat_id t).filter isRemoveFx = [] := by
  rcases chat_id with _ | cid
  · rfl
  · unfold manualNote
    split <;> simp [isRemoveFx]

lemma publishAttemptFx_filter_isRemoveFx (env : PublishEnv) (tgLink instaLink : Option String)
    (title caption_text : String) (photo_path : Option String) (links_list : List String)
    (user_name source : String) (chat_id : Option Int) :
    (publishAttemptFx env tgLink instaLink title caption_text photo_path links_list
        user_name source chat_id).filter isRemoveFx = [] := by
  rcases env with ⟨so, ur, ures, ir, fe⟩
  unfold publishAttemptFx
  rcases photo_path with _ | p <;> cases so <;> cases fe <;> cases ur <;>
    rcases ures with _ | u <;> cases ir <;>
    simp [isRemoveFx, manualNote_filter_isRemoveFx]

/-! ## C1: the publish orchestrator deletes the media file exactly once -/

/-- C1: on every exit path of `process_and_publish_post` (auth failure, upload
failure, blog-API failure, unexpected exception, success), the effect trace is
the `try` body followed by exactly one `removeFile` for the given path when it
is set and the file exists — and the `try` body itself never removes a file,
so the file is deleted exactly once, last, and never left behind. -/
theorem process_and_publish_post_deletes_exactly_once
    (env : PublishEnv) (tgLink instaLink : Option String) (title caption_text : String)
    (photo_path : Option String) (links_list : List String)
    (user_name source : String) (chat_id : Option Int) :
    (process_and_publish_post env tgLink instaLink title caption_text photo_path
        links_list user_name source chat_id).filter isRemoveFx =
      (match photo_path with
       | some p => if env.fileExists then [Effect.removeFile p] else []
       | none => []) ∧
    ∃ pre : List Effect,
      process_and_publish_post env tgLink instaLink title caption_text photo_path
          links_list user_name source chat_id =
        pre ++ (match photo_path with
                | some p => if env.fileExists then [Effect.removeFile p] else []
                | none => []) ∧
      pre.filter isRemoveFx = [] := by
  constructor
  · unfold process_and_publish_post
    rw [List.filter_append,
      publishAttemptFx_filter_isRemoveFx env tgLink instaLink title caption_text photo_path
        links_list user_name source chat_id]
    rcases photo_path with _ | p
    · rfl
    · cases hfe : env.fileExists <;> simp [isRemoveFx]
  · exact ⟨publishAttemptFx env tgLink instaLink title caption_text photo_path links_list
        user_name source chat_id, rfl,
      publishAttemptFx_filter_isRemoveFx env tgLink instaLink title caption_text photo_path
        links_list user_name source chat_id⟩

/-! ## C4: a failed image upload aborts before any blog-API call -/

/-- C4: in a manual publish with media present, when the upload returns no
URL the orchestrator sends the operator the failure acknowledgment, deletes
the temp file, and never reaches the blog-API create-post call. -/
theorem upload_failure_aborts_before_blog_call
    (env : PublishEnv) (tgLink instaLink : Option String) (title caption_text : String)
    (p : String) (links_list : List String) (user_name : String) (cid : Int)
    (hs : env.serviceOk = true) (hur : env.uploadRaises = false)
    (hu : env.uploadResult = none) (hf : env.fileExists = true) :
    process_and_publish_post env tgLink instaLink title caption_text (some p) links_list
        user_name "manual" (some cid) =
      [Effect.uploadImage p, Effect.sendMessage cid "Error: Failed to upload image.",
       Effect.removeFile p] ∧
    (process_and_publish_post env tgLink instaLink title caption_text (some p) links_list
        user_name "manual" (some cid)).filter isInsertFx = [] := by
  rcases env with ⟨so, ur, ures, ir, fe⟩
  simp only at hs hur hu hf
  subst hs hur hu hf
  constructor
  · rfl
  · simp [process_and_publish_post, publishAttemptFx, manualNote, isInsertFx]

/-- Witness for C4 at a concrete environment and input. -/
theorem upload_failure_aborts_before_blog_call_witness :
    process_and_publish_post ⟨true, false, none, false, true⟩ none none "T" "C"
        (some "temp_f.jpg") ["http://u"] "Op" "manual" (some 7) =
      [Effect.uploadImage "temp_f.jpg",
       Effect.sendMessage 7 "Error: Failed to upload image.",
       Effect.removeFile "temp_f.jpg"] ∧
    (process_and_publish_post ⟨true, false, none, false, true⟩ none none "T" "C"
        (some "temp_f.jpg") ["http://u"] "Op" "manual" (some 7)).filter isInsertFx = [] :=
  upload_failure_aborts_before_blog_call ⟨true, false, none, false, true⟩ none none "T" "C"
    "temp_f.jpg" ["http://u"] "Op" 7 rfl rfl rfl rfl

/-! ## C2: the channel filter pipeline applies its predicates in order -/

/-- C2: a post from a channel outside the source list is rejected at step 1
with no temp file downloaded and no blog-API call; a post from a listed
channel with media whose caption yields URLs (step 3 passes) none of which
match the allowlist is rejected at step 4, again with no download and no
blog-API call. -/
theorem channel_filter_pipeline_order (ids : List Int) (doms : List String)
    (env : PublishEnv) (tg ig : Option String) (post : ChannelPost) :
    (post.chatId ∉ ids →
      (channel_post_handler ids doms env tg ig ⟨some post⟩).1 =
          HandlerResult.rejectedNotSource ∧
        (channel_post_handler ids doms env tg ig ⟨some post⟩).2.filter isDownloadFx = [] ∧
        (channel_post_handler ids doms env tg ig ⟨some post⟩).2.filter isInsertFx = []) ∧
    (post.chatId ∈ ids → hasMedia post = true →
      extractUrls (post.caption.getD "") ≠ [] →
      filterByAllowlist (extractUrls (post.caption.getD "")) doms = [] →
      (channel_post_handler ids doms env tg ig ⟨some post⟩).1 =
          HandlerResult.rejectedNoValidUrls ∧
        (channel_post_handler ids doms env tg ig ⟨some post⟩).2.filter isDownloadFx = [] ∧
        (channel_post_handler ids doms env tg ig ⟨some post⟩).2.filter isInsertFx = []) := by
  constructor
  · intro h
    simp [channel_post_handler, h, isDownloadFx, isInsertFx]
  · intro hmem hm hne hfil
    simp [channel_post_handler, hmem, hm, hne, hfil, isDownloadFx, isInsertFx]

/-- Witness for C2 at concrete posts: one from a non-listed channel, one with
a caption whose only URL is off the allowlist. -/
theorem channel_filter_pipeline_order_witness :
    ((-50 : Int) ∉ ([5] : List Int) ∧
      (channel_post_handler [5] ["terabox.com"] ⟨true, false, none, false, true⟩ none none
          ⟨some ⟨-50, some "X", ["f"], none, some "hi"⟩⟩).1 =
        HandlerResult.rejectedNotSource) ∧
    ((5 : Int) ∈ ([5] : List Int) ∧
      extractUrls "see https://example.com/x" ≠ [] ∧
      filterByAllowlist (extractUrls "see https://example.com/x") ["terabox.com"] = [] ∧
      (channel_post_handler [5] ["terabox.com"] ⟨true, false, none, false, true⟩ none none
          ⟨some ⟨5, some "X", ["f"], none, some "see https://example.com/x"⟩⟩).1 =
        HandlerResult.rejectedNoValidUrls) :=
  ⟨⟨by decide,
    ((channel_filter_pipeline_order [5] ["terabox.com"] ⟨true, false, none, false, true⟩
        none none ⟨-50, some "X", ["f"], none, some "hi"⟩).1 (by decide)).1⟩,
   ⟨by decide, by decide, by decide,
    ((channel_filter_pipeline_order [5] ["terabox.com"] ⟨true, false, none, false, true⟩
        none none ⟨5, some "X", ["f"], none, some "see https://example.com/x"⟩).2
      (by decide) rfl (by decide) (by decide)).1⟩⟩

/-! ## C3: which posts reach the pipeline at all -/

/-- C3 counterexample: a channel post carrying neither photo nor video never
reaches `channel_post_handler` — the dispatcher registration filter
`(Filters.photo | Filters.video) & Filters.chat_type.channel` drops it, so it
is not rejected by the pipeline's own media-presence predicate (step 2). -/
theorem pipeline_not_applied_to_media_free_post :
    hasMedia ⟨-100, some "Src", [], none, some "plain text"⟩ = false ∧
    channelDispatch [-100] ["terabox.com"] ⟨true, false, none, false, true⟩ none none
        ⟨some ⟨-100, some "Src", [], none, some "plain text"⟩⟩ = none :=
  ⟨rfl, rfl⟩

lemma channel_post_handler_ne_noMedia (ids : List Int) (doms : List String)
    (env : PublishEnv) (tg ig : Option String) (post : ChannelPost)
    (hm : hasMedia post = true) :
    (channel_post_handler ids doms env tg ig ⟨some post⟩).1 ≠
      HandlerResult.rejectedNoMedia := by
  by_cases hid : post.chatId ∉ ids
  · simp [channel_post_handler, hid]
  · by_cases hu : extractUrls (post.caption.getD "") = []
    · simp [channel_post_handler, hm, hid, hu]
    · by_cases hv : filterByAllowlist (extractUrls (post.caption.getD "")) doms = []
      · simp [channel_post_handler, hm, hid, hu, hv]
      · simp [channel_post_handler, hm, hid, hu, hv]

/-- C3 amended: the handler is dispatched exactly for channel posts that carry
a photo or a video, and consequently the pipeline's internal media check
(step 2) never fires — a media-free channel post is dropped before the
pipeline rather than rejected by it. -/
theorem channel_dispatch_requires_media (ids : List Int) (doms : List String)
    (env : PublishEnv) (tg ig : Option String) (u : TgUpdate) :
    ((channelDispatch ids doms env tg ig u).isSome ↔
      ∃ p, u.channelPost = some p ∧ hasMedia p = true) ∧
    ∀ r tr, channelDispatch ids doms env tg ig u = some (r, tr) →
      r ≠ HandlerResult.rejectedNoMedia := by
  obtain ⟨cp⟩ := u
  constructor
  · rcases cp with _ | post
    · simp [channelDispatch]
    · by_cases hm : hasMedia post <;> simp [channelDispatch, hm]
  · intro r tr h
    rcases cp with _ | post
    · simp [channelDispatch] at h
    · by_cases hm : hasMedia post
      · simp only [channelDispatch] at h
        rw [if_pos hm, Option.some.injEq] at h
        have hne := channel_post_handler_ne_noMedia ids doms env tg ig post hm
        rw [h] at hne
        simpa using hne
      · simp [channelDispatch, hm] at h

/-- Witness for C3's amended statement at concrete updates. -/
theorem channel_dispatch_requires_media_witness :
    (channelDispatch [5] [] ⟨true, false, none, false, true⟩ none none
        ⟨some ⟨5, none, ["f"], none, none⟩⟩).isSome ∧
    ∀ r tr,
      channelDispatch [5] [] ⟨true, false, none, false, true⟩ none none
          ⟨some ⟨5, none, ["f"], none, none⟩⟩ = some (r, tr) →
      r ≠ HandlerResult.rejectedNoMedia :=
  ⟨((channel_dispatch_requires_media [5] [] ⟨true, false, none, false, true⟩ none none
      ⟨some ⟨5, none, ["f"], none, none⟩⟩).1).mpr ⟨_, rfl, rfl⟩,
   (channel_dispatch_requires_media [5] [] ⟨true, false, none, false, true⟩ none none
      ⟨some ⟨5, none, ["f"], none, none⟩⟩).2⟩

/-! ## C10: source-channel id parsing keeps only digit tokens -/

lemma parseSourceChannelIds_nonneg (s : String) :
    ∀ x ∈ parseSourceChannelIds s, 0 ≤ x := by
  intro x hx
  rw [parseSourceChannelIds, List.mem_filterMap] at hx
  obtain ⟨tok, _, htok⟩ := hx
  dsimp only at htok
  by_cases h : pyIsDigit (stripL tok)
  · rw [if_pos h, Option.some.injEq] at htok
    subst htok
    exact Int.natCast_nonneg _
  · rw [if_neg h] at htok
    cases htok

/-- C10: every configured source-channel id surviving the digit-token filter
is nonnegative, so a channel whose (negative) identifier was configured with
a minus sign can never pass filter step 1: all of its posts are rejected as
not coming from a source channel. -/
theorem digit_only_source_ids_reject_negative_channels (s : String) :
    (∀ x ∈ parseSourceChannelIds s, 0 ≤ x) ∧
    ∀ (doms : List String) (env : PublishEnv) (tg ig : Option String) (post : ChannelPost),
      post.chatId < 0 →
      (channel_post_handler (parseSourceChannelIds s) doms env tg ig ⟨some post⟩).1 =
        HandlerResult.rejectedNotSource := by
  refine ⟨parseSourceChannelIds_nonneg s, ?_⟩
  intro doms env tg ig post hneg
  have hnot : post.chatId ∉ parseSourceChannelIds s := fun hmem =>
    absurd (parseSourceChannelIds_nonneg s _ hmem) (by omega)
  simp [channel_post_handler, hnot]

/-- Witness for C10: the token `-1001234` is dropped (only `99` survives) and
a post from channel `-1001234` is rejected at step 1. -/
theorem digit_only_source_ids_witness :
    parseSourceChannelIds "-1001234,99" = [99] ∧
    (-1001234 : Int) < 0 ∧
    (channel_post_handler (parseSourceChannelIds "-1001234,99") []
        ⟨true, false, none, false, true⟩ none none
        ⟨some ⟨-1001234, none, ["f"], none, some "https://terabox.com/x"⟩⟩).1 =
      HandlerResult.rejectedNotSource :=
  ⟨by decide, by decide,
   (digit_only_source_ids_reject_negative_channels "-1001234,99").2 []
     ⟨true, false, none, false, true⟩ none none
     ⟨-1001234, none, ["f"], none, some "https://terabox.com/x"⟩ (by decide)⟩

/-! ## C5: allowlist filtering keeps substring matches, in order -/

lemma prefixB_iff : ∀ (n h : List Char), prefixB n h = true ↔ ∃ t, h = n ++ t := by
  intro n
  induction n with
  | nil =>
    intro h
    simp [prefixB]
  | cons a as ih =>
    intro h
    cases h with
    | nil => simp [prefixB]
    | cons b bs =>
      simp only [prefixB, Bool.and_eq_true, beq_iff_eq, ih, List.cons_append,
        List.cons.injEq]
      constructor
      · rintro ⟨rfl, t, rfl⟩
        exact ⟨t, rfl, rfl⟩
      · rintro ⟨t, rfl, rfl⟩
        exact ⟨rfl, t, rfl⟩

lemma infixB_iff : ∀ (n h : List Char), infixB n h = true ↔ ∃ pre suf, h = pre ++ n ++ suf := by
  intro n h
  induction h with
  | nil =>
    simp only [infixB, List.isEmpty_iff]
    constructor
    · rintro rfl
      exact ⟨[], [], rfl⟩
    · rintro ⟨pre, suf, hps⟩
      rcases List.append_eq_nil.mp hps.symm with ⟨h1, -⟩
      exact (List.append_eq_nil.mp h1).2
  | cons c rest ih =>
    simp only [infixB, Bool.or_eq_true, prefixB_iff, ih]
    constructor
    · rintro (⟨t, ht⟩ | ⟨pre, suf, hps⟩)
      · exact ⟨[], t, by simpa using ht⟩
      · exact ⟨c :: pre, suf, by simp [hps]⟩
    · rintro ⟨pre, suf, hps⟩
      cases pre with
      | nil => exact Or.inl ⟨suf, by simpa using hps⟩
      | cons c' pre' =>
        rw [List.cons_append, List.cons_append, List.cons.injEq] at hps
        exact Or.inr ⟨pre', suf, hps.2⟩

/-- C5: `filterByAllowlist` returns an order-preserving subsequence of its
input, and keeps a URL exactly when some allowlist entry occurs as a
substring of the URL. -/
theorem filterByAllowlist_spec (urls doms : List String) :
    (filterByAllowlist urls doms).Sublist urls ∧
    ∀ u, u ∈ filterByAllowlist urls doms ↔
      u ∈ urls ∧ ∃ d ∈ doms, ∃ pre suf, u.data = pre ++ d.data ++ suf := by
  refine ⟨List.filter_sublist _, fun u => ?_⟩
  rw [filterByAllowlist, List.mem_filter, List.any_eq_true]
  simp only [infixB_iff]

/-! ## C6: the URL extractor -/

lemma matchUrlAt_some : ∀ {cs m r : List Char}, matchUrlAt cs = some (m, r) →
    cs = m ++ r ∧ urlShape m := by
  intro cs m r h
  unfold matchUrlAt at h
  split at h
  · rename_i r0
    dsimp only at h
    split at h
    · cases h
    · rename_i hbody
      rw [Option.some.injEq, Prod.mk.injEq] at h
      obtain ⟨hm, hr⟩ := h
      subst hm
      subst hr
      refine ⟨by simp [List.takeWhile_append_dropWhile], ?_⟩
      refine ⟨r0.takeWhile (fun c => !pySpace c), Or.inr rfl, ?_, ?_⟩
      · simpa [List.isEmpty_iff] using hbody
      · intro c hc
        simpa using List.mem_takeWhile_imp hc
  · rename_i r0
    dsimp only at h
    split at h
    · cases h
    · rename_i hbody
      rw [Option.some.injEq, Prod.mk.injEq] at h
      obtain ⟨hm, hr⟩ := h
      subst hm
      subst hr
      refine ⟨by simp [List.takeWhile_append_dropWhile], ?_⟩
      refine ⟨r0.takeWhile (fun c => !pySpace c), Or.inl rfl, ?_, ?_⟩
      · simpa [List.isEmpty_iff] using hbody
      · intro c hc
        simpa using List.mem_takeWhile_imp hc
  · cases h

lemma matchUrlAt_length {cs m r : List Char} (h : matchUrlAt cs = some (m, r)) :
    r.length < cs.length := by
  obtain ⟨hcs, body, hor, -, -⟩ := matchUrlAt_some h
  have hm : m ≠ [] := by
    rcases hor with h' | h' <;> subst h' <;> simp [httpPrefix, httpsPrefix]
  subst hcs
  rw [List.length_append]
  have : 0 < m.length := List.length_pos.mpr hm
  omega

lemma matchUrlAt_eq_none (cs : List Char) (hf : schemeFree cs) :
    matchUrlAt cs = none := by
  cases h : matchUrlAt cs with
  | none => rfl
  | some pr =>
    obtain ⟨m, r⟩ := pr
    obtain ⟨hcs, body, hor, -, -⟩ := matchUrlAt_some h
    rcases hor with h' | h'
    · exact absurd (by rw [hcs, h']; simp [List.append_assoc]) (hf [] (body ++ r)).1
    · exact absurd (by rw [hcs, h']; simp [List.append_assoc]) (hf [] (body ++ r)).2

lemma dropWhile_head_space (l : List Char) :
    l.dropWhile (fun c => !pySpace c) = [] ∨
      ∃ c rest, l.dropWhile (fun c => !pySpace c) = c :: rest ∧ pySpace c = true := by
  induction l with
  | nil => exact Or.inl rfl
  | cons a as ih =>
    by_cases h : pySpace a = true
    · refine Or.inr ⟨a, as, ?_, h⟩
      rw [List.dropWhile_cons, if_neg (by simp [h])]
    · rw [List.dropWhile_cons, if_pos (by simp [Bool.not_eq_true] at h; simp [h])]
      exact ih

lemma matchUrlAt_rest : ∀ {cs m r : List Char}, matchUrlAt cs = some (m, r) →
    r = [] ∨ ∃ c rest, r = c :: rest ∧ pySpace c = true := by
  intro cs m r h
  unfold matchUrlAt at h
  split at h
  · dsimp only at h
    split at h
    · cases h
    · rw [Option.some.injEq, Prod.mk.injEq] at h
      obtain ⟨-, hr⟩ := h
      subst hr
      exact dropWhile_head_space _
  · dsimp only at h
    split at h
    · cases h
    · rw [Option.some.injEq, Prod.mk.injEq] at h
      obtain ⟨-, hr⟩ := h
      subst hr
      exact dropWhile_head_space _
  · cases h

lemma matchUrlAt_sound {cs m r : List Char} (h : matchUrlAt cs = some (m, r)) :
    urlMatchAt cs m r :=
  ⟨(matchUrlAt_some h).1, (matchUrlAt_some h).2, matchUrlAt_rest h⟩

lemma takeWhile_all_append (p : Char → Bool) : ∀ (u v : List Char),
    (∀ c ∈ u, p c = true) → (v = [] ∨ ∃ c rest, v = c :: rest ∧ p c = false) →
    (u ++ v).takeWhile p = u ∧ (u ++ v).dropWhile p = v := by
  intro u
  induction u with
  | nil =>
    intro v _ hv
    rcases hv with rfl | ⟨c, rest, rfl, hc⟩
    · exact ⟨rfl, rfl⟩
    · constructor
      · rw [List.nil_append, List.takeWhile_cons, if_neg (by simp [hc])]
      · rw [List.nil_append, List.dropWhile_cons, if_neg (by simp [hc])]
  | cons a u' ih =>
    intro v hu hv
    have ha : p a = true := hu a (List.mem_cons_self a u')
    obtain ⟨h1, h2⟩ := ih v (fun c hc => hu c (List.mem_cons_of_mem _ hc)) hv
    constructor
    · rw [List.cons_append, List.takeWhile_cons, if_pos ha, h1]
    · rw [List.cons_append, List.dropWhile_cons, if_pos ha, h2]

lemma urlMatchAt_eq_match : ∀ {cs m r : List Char}, urlMatchAt cs m r →
    matchUrlAt cs = some (m, r) := by
  intro cs m r h
  obtain ⟨hcs, ⟨body, hor, hbne, hbody⟩, hr⟩ := h
  have hbody' : ∀ c ∈ body, (fun c => !pySpace c) c = true := by
    intro c hc
    simp [hbody c hc]
  have hr' : r = [] ∨ ∃ c rest, r = c :: rest ∧ (fun c => !pySpace c) c = false := by
    rcases hr with rfl | ⟨c, rest, hrc, hc⟩
    · exact Or.inl rfl
    · exact Or.inr ⟨c, rest, hrc, by simp [hc]⟩
  obtain ⟨htake, hdrop⟩ := takeWhile_all_append (fun c => !pySpace c) body r hbody' hr'
  rcases hor with hm | hm
  · subst hm
    subst hcs
    have harm : matchUrlAt ((httpPrefix ++ body) ++ r) =
        (if ((body ++ r).takeWhile (fun c => !pySpace c)).isEmpty then none
         else some ('h' :: 't' :: 't' :: 'p' :: ':' :: '/' :: '/' ::
             ((body ++ r).takeWhile (fun c => !pySpace c)),
           (body ++ r).dropWhile (fun c => !pySpace c))) := rfl
    rw [harm, htake, hdrop, if_neg (by simpa [List.isEmpty_iff] using hbne)]
    rfl
  · subst hm
    subst hcs
    have harm : matchUrlAt ((httpsPrefix ++ body) ++ r) =
        (if ((body ++ r).takeWhile (fun c => !pySpace c)).isEmpty then none
         else some ('h' :: 't' :: 't' :: 'p' :: 's' :: ':' :: '/' :: '/' ::
             ((body ++ r).takeWhile (fun c => !pySpace c)),
           (body ++ r).dropWhile (fun c => !pySpace c))) := rfl
    rw [harm, htake, hdrop, if_neg (by simpa [List.isEmpty_iff] using hbne)]
    rfl

lemma noUrlMatch_of_matchUrlAt_none {cs : List Char} (h : matchUrlAt cs = none) :
    ∀ m r, ¬ urlMatchAt cs m r := by
  intro m r hm
  rw [urlMatchAt_eq_match hm] at h
  cases h

lemma urlMatchAt_unique {cs m₁ r₁ m₂ r₂ : List Char}
    (h₁ : urlMatchAt cs m₁ r₁) (h₂ : urlMatchAt cs m₂ r₂) : m₁ = m₂ ∧ r₁ = r₂ := by
  have e₁ := urlMatchAt_eq_match h₁
  have e₂ := urlMatchAt_eq_match h₂
  rw [e₁, Option.some.injEq, Prod.mk.injEq] at e₂
  exact e₂

lemma urlFindAll_unique : ∀ {cs : List Char} {ms₁ ms₂ : List (List Char)},
    UrlFindAll cs ms₁ → UrlFindAll cs ms₂ → ms₁ = ms₂ := by
  intro cs ms₁ ms₂ h₁
  induction h₁ generalizing ms₂ with
  | nil =>
    intro h₂
    cases h₂ with
    | nil => rfl
    | found hmatch _ =>
      exact absurd hmatch
        (noUrlMatch_of_matchUrlAt_none (show matchUrlAt ([] : List Char) = none from rfl) _ _)
  | gap hno _ ih =>
    intro h₂
    cases h₂ with
    | gap _ h₂' => exact ih h₂'
    | found hmatch _ => exact absurd hmatch (hno _ _)
  | found hmatch _ ih =>
    intro h₂
    cases h₂ with
    | nil =>
      exact absurd hmatch
        (noUrlMatch_of_matchUrlAt_none (show matchUrlAt ([] : List Char) = none from rfl) _ _)
    | gap hno _ => exact absurd hmatch (hno _ _)
    | found hmatch₂ hrest₂ =>
      obtain ⟨hm, hr⟩ := urlMatchAt_unique hmatch hmatch₂
      subst hm
      subst hr
      rw [ih hrest₂]

lemma scanUrlsGo_findAll : ∀ (fuel : Nat) (cs : List Char), cs.length ≤ fuel →
    UrlFindAll cs (scanUrlsGo fuel cs) := by
  intro fuel
  induction fuel with
  | zero =>
    intro cs hl
    have : cs = [] := List.length_eq_zero.mp (Nat.le_zero.mp hl)
    subst this
    exact UrlFindAll.nil
  | succ fuel ih =>
    intro cs hl
    cases cs with
    | nil => exact UrlFindAll.nil
    | cons c rest =>
      cases hm : matchUrlAt (c :: rest) with
      | some pr =>
        obtain ⟨m, r⟩ := pr
        rw [show scanUrlsGo (fuel + 1) (c :: rest) = m :: scanUrlsGo fuel r from by
          simp [scanUrlsGo, hm]]
        have hlen : r.length ≤ fuel := by
          have h1 := matchUrlAt_length hm
          rw [List.length_cons] at h1 hl
          omega
        exact UrlFindAll.found (matchUrlAt_sound hm) (ih r hlen)
      | none =>
        rw [show scanUrlsGo (fuel + 1) (c :: rest) = scanUrlsGo fuel rest from by
          simp [scanUrlsGo, hm]]
        exact UrlFindAll.gap (noUrlMatch_of_matchUrlAt_none hm)
          (ih rest (by rw [List.length_cons] at hl; omega))

lemma alternate_cons (c : Char) (g : List Char) (gs ms : List (List Char)) :
    alternate ((c :: g) :: gs) ms = c :: alternate (g :: gs) ms := by
  cases ms <;> rfl

lemma scanUrlsGo_decomp : ∀ (fuel : Nat) (cs : List Char), cs.length ≤ fuel →
    ∃ gaps, gaps.length = (scanUrlsGo fuel cs).length + 1 ∧
      cs = alternate gaps (scanUrlsGo fuel cs) ∧
      ∀ m ∈ scanUrlsGo fuel cs, urlShape m := by
  intro fuel
  induction fuel with
  | zero =>
    intro cs hl
    have : cs = [] := List.length_eq_zero.mp (Nat.le_zero.mp hl)
    subst this
    exact ⟨[[]], by simp [scanUrlsGo], rfl, by simp [scanUrlsGo]⟩
  | succ fuel ih =>
    intro cs hl
    cases cs with
    | nil => exact ⟨[[]], by simp [scanUrlsGo], rfl, by simp [scanUrlsGo]⟩
    | cons c rest =>
      cases hm : matchUrlAt (c :: rest) with
      | some pr =>
        obtain ⟨m, r⟩ := pr
        have hlen : r.length ≤ fuel := by
          have h1 := matchUrlAt_length hm
          rw [List.length_cons] at h1 hl
          omega
        obtain ⟨gaps, hg1, hg2, hg3⟩ := ih r hlen
        have hscan : scanUrlsGo (fuel + 1) (c :: rest) = m :: scanUrlsGo fuel r := by
          simp [scanUrlsGo, hm]
        obtain ⟨g, gs, rfl⟩ : ∃ g gs, gaps = g :: gs := by
          cases gaps with
          | nil => simp at hg1
          | cons g gs => exact ⟨g, gs, rfl⟩
        refine ⟨[] :: g :: gs, ?_, ?_, ?_⟩
        · rw [hscan]
          simp only [List.length_cons] at hg1 ⊢
          omega
        · rw [hscan]
          show c :: rest = [] ++ m ++ alternate (g :: gs) (scanUrlsGo fuel r)
          rw [← hg2]
          simpa using (matchUrlAt_some hm).1
        · intro m' hm'
          rw [hscan, List.mem_cons] at hm'
          rcases hm' with rfl | hm'
          · exact (matchUrlAt_some hm).2
          · exact hg3 m' hm'
      | none =>
        have hscan : scanUrlsGo (fuel + 1) (c :: rest) = scanUrlsGo fuel rest := by
          simp [scanUrlsGo, hm]
        obtain ⟨gaps, hg1, hg2, hg3⟩ := ih rest (by rw [List.length_cons] at hl; omega)
        obtain ⟨g, gs, rfl⟩ : ∃ g gs, gaps = g :: gs := by
          cases gaps with
          | nil => simp at hg1
          | cons g gs => exact ⟨g, gs, rfl⟩
        refine ⟨(c :: g) :: gs, by simpa [hscan] using hg1, ?_, ?_⟩
        · rw [hscan, alternate_cons, ← hg2]
        · intro m' hm'
          rw [hscan] at hm'
          exact hg3 m' hm'

lemma scanUrlsGo_ne_nil : ∀ (fuel : Nat) (cs : List Char), cs.length ≤ fuel →
    anyMatchPos cs = true → scanUrlsGo fuel cs ≠ [] := by
  intro fuel
  induction fuel with
  | zero =>
    intro cs hl hm
    have : cs = [] := List.length_eq_zero.mp (Nat.le_zero.mp hl)
    subst this
    simp [anyMatchPos] at hm
  | succ fuel ih =>
    intro cs hl hm
    cases cs with
    | nil => simp [anyMatchPos] at hm
    | cons c rest =>
      cases hmm : matchUrlAt (c :: rest) with
      | some pr =>
        obtain ⟨m, r⟩ := pr
        simp [scanUrlsGo, hmm]
      | none =>
        have hrest : anyMatchPos rest = true := by
          simpa [anyMatchPos, hmm] using hm
        have h2 := ih rest (by rw [List.length_cons] at hl; omega) hrest
        simpa [scanUrlsGo, hmm] using h2

lemma scanUrlsGo_eq_nil (fuel : Nat) : ∀ cs, schemeFree cs → scanUrlsGo fuel cs = [] := by
  induction fuel with
  | zero => intro cs _; rfl
  | succ fuel ih =>
    intro cs hf
    cases cs with
    | nil => rfl
    | cons c rest =>
      have hnone : matchUrlAt (c :: rest) = none := matchUrlAt_eq_none _ hf
      have hrest : schemeFree rest := by
        intro pre suf
        refine ⟨fun hEq => (hf (c :: pre) suf).1 (by simp [hEq]), fun hEq =>
          (hf (c :: pre) suf).2 (by simp [hEq])⟩
      simpa [scanUrlsGo, hnone] using ih rest hrest

lemma map_data_mk (l : List (List Char)) : (l.map String.mk).map String.data = l := by
  rw [List.map_map]
  exact List.map_id _

/-- C6: the extractor implements `re.findall` for the URL pattern completely.
Its output satisfies the declarative scan relation `UrlFindAll` — every
position outside the returned matches admits no greedy match (so every
substring matching the pattern is returned, duplicates retained, each match
maximal), and that relation is functional, so the output is the unique list
satisfying it.  In addition the output interleaves with gap segments to
reassemble the input (matches disjoint, in left-to-right order of first
appearance), each returned item has the URL shape (`http`/`https` scheme plus
a nonempty non-whitespace run), the output is nonempty whenever the pattern
matches anywhere, and a text with no `http://`/`https://` substring yields
the empty sequence. -/
theorem extractUrls_spec (s : String) :
    UrlFindAll s.data ((extractUrls s).map String.data) ∧
    (∀ ms₁ ms₂, UrlFindAll s.data ms₁ → UrlFindAll s.data ms₂ → ms₁ = ms₂) ∧
    (∃ gaps, gaps.length = (extractUrls s).length + 1 ∧
      s.data = alternate gaps ((extractUrls s).map String.data) ∧
      ∀ m ∈ (extractUrls s).map String.data, urlShape m) ∧
    (anyMatchPos s.data = true → extractUrls s ≠ []) ∧
    ((infixB httpPrefix s.data || infixB httpsPrefix s.data) = false →
      extractUrls s = []) := by
  refine ⟨?_, fun ms₁ ms₂ h₁ h₂ => urlFindAll_unique h₁ h₂, ?_, ?_, ?_⟩
  · rw [extractUrls, map_data_mk]
    exact scanUrlsGo_findAll s.data.length s.data le_rfl
  · obtain ⟨gaps, h1, h2, h3⟩ := scanUrlsGo_decomp s.data.length s.data le_rfl
    refine ⟨gaps, ?_, ?_, ?_⟩
    · simpa [extractUrls] using h1
    · rw [extractUrls, map_data_mk]
      exact h2
    · rw [extractUrls, map_data_mk]
      exact h3
  · intro h
    have := scanUrlsGo_ne_nil s.data.length s.data le_rfl h
    simpa [extractUrls] using this
  · intro h
    rw [Bool.or_eq_false_iff] at h
    have hf : schemeFree s.data := by
      intro pre suf
      constructor
      · intro hEq
        have : infixB httpPrefix s.data = true := (infixB_iff _ _).mpr ⟨pre, suf, hEq⟩
        rw [this] at h
        cases h.1
      · intro hEq
        have : infixB httpsPrefix s.data = true := (infixB_iff _ _).mpr ⟨pre, suf, hEq⟩
        rw [this] at h
        cases h.2
    rw [extractUrls, scanUrlsGo_eq_nil s.data.length s.data hf]
    rfl

/-- Witness for C6: a text with one URL yields a nonempty extraction; a text
with no scheme substring yields the empty sequence; and on `"http://a b"` the
uniqueness conjunct, fed a hand-built `UrlFindAll` derivation, pins the
extractor's output to exactly the one maximal match. -/
theorem extractUrls_spec_witness :
    (anyMatchPos ("go http://a.io now" : String).data = true ∧
      extractUrls "go http://a.io now" ≠ []) ∧
    ((infixB httpPrefix ("hello world" : String).data ||
        infixB httpsPrefix ("hello world" : String).data) = false ∧
      extractUrls "hello world" = []) ∧
    (extractUrls "http://a b").map String.data =
      [['h', 't', 't', 'p', ':', '/', '/', 'a']] :=
  ⟨⟨by decide, (extractUrls_spec "go http://a.io now").2.2.2.1 (by decide)⟩,
   ⟨by decide, (extractUrls_spec "hello world").2.2.2.2 (by decide)⟩,
   (extractUrls_spec "http://a b").2.1 _ _ (extractUrls_spec "http://a b").1
     (UrlFindAll.found
       (@matchUrlAt_sound ("http://a b" : String).data
         ['h', 't', 't', 'p', ':', '/', '/', 'a'] [' ', 'b'] (by decide))
       (UrlFindAll.gap (@noUrlMatch_of_matchUrlAt_none [' ', 'b'] (by decide))
         (UrlFindAll.gap (@noUrlMatch_of_matchUrlAt_none ['b'] (by decide))
           UrlFindAll.nil)))⟩

/-! ## C7: the renderer's image tag and video buttons -/

lemma strFoldl_shift : ∀ (l : List String) (init : String),
    l.foldl (fun r s => r ++ s) init = init ++ l.foldl (fun r s => r ++ s) "" := by
  intro l
  induction l with
  | nil => intro init; simp
  | cons b bs ih =>
    intro init
    simp only [List.foldl_cons]
    rw [ih (init ++ b), ih (("" : String) ++ b)]
    simp [String.append_assoc]

lemma strJoin_cons (s : String) (l : List String) :
    String.join (s :: l) = s ++ String.join l := by
  show (s :: l).foldl (fun r t => r ++ t) "" = s ++ l.foldl (fun r t => r ++ t) ""
  rw [List.foldl_cons, strFoldl_shift l (("" : String) ++ s)]
  simp

lemma foldl_append_join {α : Type} (f : α → String) :
    ∀ (l : List α) (init : String),
      l.foldl (fun acc x => acc ++ f x) init = init ++ String.join (l.map f) := by
  intro l
  induction l with
  | nil => intro init; simp [String.join]
  | cons a as ih =>
    intro init
    simp only [List.foldl_cons, List.map_cons, strJoin_cons, ih, String.append_assoc]

/-- C7: the rendered page decomposes into the fixed template around the image
tag and the button block; the image tag is emitted exactly when an image URL
is present (nonempty), zero links yield an empty button block, one link a
single button labeled Watch Video, and several links one button per link
labeled with its 1-based index, in input order. -/
theorem build_blog_post_html_spec (image_url : Option String) (caption : String)
    (links : List String) (tg ig : Option String) :
    build_blog_post_html image_url caption links tg ig =
        styleBlock ++ "<div class=\"post-container\">" ++ imageTag image_url ++
        "<div class=\"post-caption\">" ++ caption.replace "\n" "<br>" ++
        "</div><div class=\"button-container\">" ++ dynamicButtonsHtml links ++
        "</div><div class=\"footer-container\">" ++ footerButtonsHtml tg ig ++
        "</div></div>" ∧
    (optPresent image_url = true →
      imageTag image_url =
        "<img src=\"" ++ image_url.getD "" ++ "\" alt=\"Post Image\" />") ∧
    (optPresent image_url = false → imageTag image_url = "") ∧
    (links = [] → dynamicButtonsHtml links = "") ∧
    (∀ u, links = [u] → dynamicButtonsHtml links = videoButtonHtml u "Watch Video") ∧
    (2 ≤ links.length →
      dynamicButtonsHtml links =
        String.join ((links.enum).map fun p =>
          videoButtonHtml p.2 ("Watch Video " ++ toString (p.1 + 1)))) := by
  refine ⟨rfl, ?_, ?_, ?_, ?_, ?_⟩
  · intro h
    rw [imageTag, if_pos h]
  · intro h
    rw [imageTag, if_neg (by rw [h]; simp)]
  · rintro rfl
    rfl
  · rintro u rfl
    rfl
  · intro h2
    have h1 : (links.length == 1) = false := by
      simp only [beq_eq_false_iff_ne, ne_eq]
      omega
    rw [dynamicButtonsHtml, if_neg (by rw [h1]; simp), if_pos (by omega),
      foldl_append_join]
    simp

/-- Witness for C7 at concrete inputs. -/
theorem build_blog_post_html_spec_witness :
    imageTag (some "http://img/u.png") =
      "<img src=\"" ++ "http://img/u.png" ++ "\" alt=\"Post Image\" />" ∧
    imageTag none = "" ∧
    dynamicButtonsHtml [] = "" ∧
    dynamicButtonsHtml ["http://a"] = videoButtonHtml "http://a" "Watch Video" ∧
    dynamicButtonsHtml ["http://a", "http://b"] =
      String.join (((["http://a", "http://b"] : List String).enum).map fun p =>
        videoButtonHtml p.2 ("Watch Video " ++ toString (p.1 + 1))) :=
  ⟨(build_blog_post_html_spec (some "http://img/u.png") "" [] none none).2.1 (by decide),
   (build_blog_post_html_spec none "" [] none none).2.2.1 rfl,
   (build_blog_post_html_spec none "" [] none none).2.2.2.1 rfl,
   (build_blog_post_html_spec none "" ["http://a"] none none).2.2.2.2.1 "http://a" rfl,
   (build_blog_post_html_spec none "" ["http://a", "http://b"] none none).2.2.2.2.2
     (by decide)⟩

/-! ## C9: admin-surface handling of non-admin senders -/

/-- C9 counterexample: `/help` is part of the claimed admin surface, yet a
non-admin sender receives a (non-empty) response from it, so the admin
surface does not silently reject all non-admin invocations. -/
theorem help_responds_to_non_admin :
    ("2" : String) ≠ "1" ∧
    help_command "1" "2" = [helpText] ∧
    helpText ≠ "" ∧
    (help_command "1" "2").length = 1 :=
  ⟨by decide, rfl, by decide, rfl⟩

/-- C9 amended: the three domain commands (`/addsite`, `/removesite`,
`/listsites`) silently ignore non-admin senders (no reply, no state change,
no storage write), while `/help` replies to every sender, appending the
admin section only for the admin identity. -/
theorem admin_surface_silent_rejection (adminId senderId : String)
    (args : List String) (domains : List String) (h : senderId ≠ adminId) :
    add_site adminId senderId args domains = ⟨[], domains, false⟩ ∧
    remove_site adminId senderId args domains = ⟨[], domains, false⟩ ∧
    list_sites adminId senderId domains = ⟨[], domains, false⟩ ∧
    help_command adminId senderId = [helpText] := by
  refine ⟨?_, ?_, ?_, ?_⟩
  · rw [add_site.eq_def, if_pos h]
  · rw [remove_site.eq_def, if_pos h]
  · rw [list_sites, if_pos h]
  · rw [help_command, if_neg h]

/-- Witness for C9's amended statement at a concrete non-admin sender. -/
theorem admin_surface_silent_rejection_witness :
    add_site "1" "2" ["x.com"] ["a.com"] = ⟨[], ["a.com"], false⟩ ∧
    remove_site "1" "2" ["x.com"] ["a.com"] = ⟨[], ["a.com"], false⟩ ∧
    list_sites "1" "2" ["a.com"] = ⟨[], ["a.com"], false⟩ ∧
    help_command "1" "2" = [helpText] :=
  admin_surface_silent_rejection "1" "2" ["x.com"] ["a.com"] (by decide)

/-! ## C8: the domain store round-trip -/

lemma dropWhile_dropWhile (p : Char → Bool) (l : List Char) :
    (l.dropWhile p).dropWhile p = l.dropWhile p := by
  induction l with
  | nil => rfl
  | cons a as ih =>
    by_cases h : p a
    · simp [List.dropWhile_cons, h, ih]
    · simp [List.dropWhile_cons, h]

lemma head_not_of_dropWhile_eq_self {p : Char → Bool} {a : Char} {l : List Char}
    (h : (a :: l).dropWhile p = a :: l) : p a = false := by
  by_cases hp : p a
  · rw [List.dropWhile_cons, if_pos hp] at h
    have := congrArg List.length h
    have hsub := (List.dropWhile_sublist (l := l) p).length_le
    simp at this
    omega
  · exact Bool.not_eq_true _ ▸ by simpa using hp

lemma dropWhile_right_trimmed {p : Char → Bool} (w : List Char) (hw : w.dropWhile p = w) :
    ((w.reverse.dropWhile p).reverse).dropWhile p = (w.reverse.dropWhile p).reverse := by
  cases w with
  | nil => rfl
  | cons a w' =>
    have hpa : p a = false := head_not_of_dropWhile_eq_self hw
    have hrev : (a :: w').reverse = w'.reverse ++ [a] := by simp
    rw [hrev, List.dropWhile_append]
    by_cases he : (w'.reverse.dropWhile p).isEmpty = true
    · rw [if_pos he]
      simp [List.dropWhile_cons, hpa]
    · rw [if_neg he]
      rw [List.reverse_append]
      simp only [List.reverse_cons, List.reverse_nil, List.nil_append,
        List.singleton_append]
      simp [List.dropWhile_cons, hpa]

lemma stripL_idem (cs : List Char) : stripL (stripL cs) = stripL cs := by
  have hw : (cs.dropWhile pySpace).dropWhile pySpace = cs.dropWhile pySpace :=
    dropWhile_dropWhile pySpace cs
  have h1 : (stripL cs).dropWhile pySpace = stripL cs :=
    dropWhile_right_trimmed (cs.dropWhile pySpace) hw
  rw [stripL, h1]
  show ((((cs.dropWhile pySpace).reverse.dropWhile pySpace).reverse).reverse.dropWhile
      pySpace).reverse = stripL cs
  rw [List.reverse_reverse, dropWhile_dropWhile]
  rfl

lemma mem_of_mem_stripL {a : Char} {cs : List Char} (h : a ∈ stripL cs) : a ∈ cs := by
  rw [stripL, List.mem_reverse] at h
  have h2 : a ∈ (cs.dropWhile pySpace).reverse :=
    List.Sublist.mem h (List.dropWhile_sublist _)
  rw [List.mem_reverse] at h2
  exact List.Sublist.mem h2 (List.dropWhile_sublist _)

lemma splitSep_ne_nil (sep : Char) (cs : List Char) : splitSep sep cs ≠ [] := by
  cases cs with
  | nil => simp [splitSep]
  | cons c rest =>
    unfold splitSep
    cases h : splitSep sep rest with
    | nil => simp
    | cons l ls =>
      dsimp only
      split <;> simp

lemma splitSep_not_mem (sep : Char) : ∀ (cs : List Char), ∀ l ∈ splitSep sep cs, sep ∉ l := by
  intro cs
  induction cs with
  | nil =>
    intro l hl
    simp only [splitSep, List.mem_singleton] at hl
    simp [hl]
  | cons c rest ih =>
    intro l hl
    rw [splitSep.eq_def] at hl
    dsimp only at hl
    cases h : splitSep sep rest with
    | nil => exact absurd h (splitSep_ne_nil sep rest)
    | cons k ks =>
      rw [h] at hl
      dsimp only at hl
      by_cases hc : (c == sep) = true
      · rw [if_pos hc] at hl
        rcases List.mem_cons.mp hl with rfl | hl'
        · simp
        · exact ih l (h ▸ hl')
      · rw [if_neg hc] at hl
        rcases List.mem_cons.mp hl with rfl | hl'
        · intro hmem
          rcases List.mem_cons.mp hmem with rfl | hmem'
          · exact hc (by simp)
          · exact ih k (h ▸ List.mem_cons_self k ks) hmem'
        · exact ih l (h ▸ List.mem_cons_of_mem k hl')

lemma splitSep_append (sep : Char) :
    ∀ (d t : List Char), sep ∉ d →
      splitSep sep (d ++ sep :: t) = d :: splitSep sep t := by
  intro d
  induction d with
  | nil =>
    intro t _
    show splitSep sep (sep :: t) = [] :: splitSep sep t
    rw [splitSep.eq_def]
    cases h : splitSep sep t with
    | nil => exact absurd h (splitSep_ne_nil sep t)
    | cons k ks =>
      dsimp only
      rw [h]
      simp
  | cons c d' ih =>
    intro t hmem
    have hc : (c == sep) = false := by
      simp only [beq_eq_false_iff_ne, ne_eq]
      intro hEq
      exact hmem (hEq ▸ List.mem_cons_self c d')
    show splitSep sep (c :: (d' ++ sep :: t)) = (c :: d') :: splitSep sep t
    rw [splitSep.eq_def]
    dsimp only
    rw [ih t (fun hm => hmem (List.mem_cons_of_mem _ hm))]
    simp [hc]

lemma splitSep_flatten (sep : Char) :
    ∀ (ds : List (List Char)), (∀ d ∈ ds, sep ∉ d) →
      splitSep sep ((ds.map (fun d => d ++ [sep])).flatten) = ds ++ [[]] := by
  intro ds
  induction ds with
  | nil => intro _; rfl
  | cons d ds ih =>
    intro h
    simp only [List.map_cons, List.flatten_cons]
    have hassoc : d ++ [sep] ++ (ds.map (fun d => d ++ [sep])).flatten =
        d ++ sep :: (ds.map (fun d => d ++ [sep])).flatten := by
      rw [List.append_assoc, List.singleton_append]
    rw [hassoc, splitSep_append sep d _ (h d (List.mem_cons_self d ds)),
      ih (fun d' hd' => h d' (List.mem_cons_of_mem _ hd'))]
    rfl

lemma lexLeB_total : ∀ a b : List Char, lexLeB a b = true ∨ lexLeB b a = true := by
  intro a
  induction a with
  | nil => intro b; left; rfl
  | cons x as ih =>
    intro b
    cases b with
    | nil => right; rfl
    | cons y bs =>
      rcases lt_trichotomy x y with h | h | h
      · left; simp [lexLeB, h]
      · subst h
        rcases ih bs with h' | h'
        · left; simp [lexLeB, lt_irrefl, h']
        · right; simp [lexLeB, lt_irrefl, h']
      · right; simp [lexLeB, h]

lemma lexLeB_trans : ∀ a b c : List Char,
    lexLeB a b = true → lexLeB b c = true → lexLeB a c = true := by
  intro a
  induction a with
  | nil => intros; rfl
  | cons x as ih =>
    intro b c hab hbc
    cases b with
    | nil => simp [lexLeB] at hab
    | cons y bs =>
      cases c with
      | nil => simp [lexLeB] at hbc
      | cons z cs =>
        by_cases hxy : x < y
        · by_cases hyz : y < z
          · simp [lexLeB, lt_trans hxy hyz]
          · by_cases hzy : z < y
            · simp [lexLeB, hyz, hzy] at hbc
            · have hy : y = z := le_antisymm (not_lt.mp hzy) (not_lt.mp hyz)
              subst hy
              simp [lexLeB, hxy]
        · by_cases hyx : y < x
          · simp [lexLeB, hxy, hyx] at hab
          · have hx : x = y := le_antisymm (not_lt.mp hyx) (not_lt.mp hxy)
            subst hx
            simp only [lexLeB, lt_irrefl, if_false] at hab
            by_cases hxz : x < z
            · simp [lexLeB, hxz]
            · by_cases hzx : z < x
              · simp [lexLeB, hxz, hzx] at hbc
              · have hz : x = z := le_antisymm (not_lt.mp hzx) (not_lt.mp hxz)
                subst hz
                simp only [lexLeB, lt_irrefl, if_false] at hbc ⊢
                exact ih bs cs hab hbc

lemma strLeB_total (a b : String) : strLeB a b = true ∨ strLeB b a = true :=
  lexLeB_total a.data b.data

lemma strLeB_trans (a b c : String) :
    strLeB a b = true → strLeB b c = true → strLeB a c = true :=
  lexLeB_trans a.data b.data c.data

lemma insertSorted_perm (x : String) : ∀ l, (insertSorted x l).Perm (x :: l) := by
  intro l
  induction l with
  | nil => exact List.Perm.refl _
  | cons y ys ih =>
    unfold insertSorted
    by_cases h : strLeB x y = true
    · rw [if_pos h]
    · rw [if_neg h]
      exact (ih.cons y).trans (List.Perm.swap x y ys)

lemma sortStrings_perm : ∀ l, (sortStrings l).Perm l := by
  intro l
  induction l with
  | nil => exact List.Perm.refl _
  | cons x xs ih =>
    exact (insertSorted_perm x (sortStrings xs)).trans (ih.cons x)

lemma insertSorted_pairwise (x : String) :
    ∀ l, l.Pairwise (fun a b => strLeB a b = true) →
      (insertSorted x l).Pairwise (fun a b => strLeB a b = true) := by
  intro l
  induction l with
  | nil => intro _; exact List.pairwise_singleton _ x
  | cons y ys ih =>
    intro hp
    rw [List.pairwise_cons] at hp
    obtain ⟨hy, hys⟩ := hp
    unfold insertSorted
    by_cases h : strLeB x y = true
    · rw [if_pos h, List.pairwise_cons]
      refine ⟨?_, List.pairwise_cons.mpr ⟨hy, hys⟩⟩
      intro a ha
      rcases List.mem_cons.mp ha with rfl | ha'
      · exact h
      · exact strLeB_trans x y a h (hy a ha')
    · rw [if_neg h, List.pairwise_cons]
      have hyx : strLeB y x = true := (strLeB_total x y).resolve_left h
      refine ⟨?_, ih hys⟩
      intro a ha
      have hmem := (insertSorted_perm x ys).mem_iff.mp ha
      rcases List.mem_cons.mp hmem with rfl | ha'
      · exact hyx
      · exact hy a ha'

lemma sortStrings_pairwise :
    ∀ l, (sortStrings l).Pairwise (fun a b => strLeB a b = true) := by
  intro l
  induction l with
  | nil => exact List.Pairwise.nil
  | cons x xs ih => exact insertSorted_pairwise x (sortStrings xs) ih

lemma sortStrings_of_pairwise :
    ∀ l, l.Pairwise (fun a b => strLeB a b = true) → sortStrings l = l := by
  intro l
  induction l with
  | nil => intro _; rfl
  | cons x xs ih =>
    intro hp
    rw [List.pairwise_cons] at hp
    obtain ⟨hx, hxs⟩ := hp
    show insertSorted x (sortStrings xs) = x :: xs
    rw [ih hxs]
    cases xs with
    | nil => rfl
    | cons y ys =>
      show insertSorted x (y :: ys) = x :: y :: ys
      unfold insertSorted
      rw [if_pos (hx y (List.mem_cons_self y ys))]

lemma sortStrings_idem (l : List String) : sortStrings (sortStrings l) = sortStrings l :=
  sortStrings_of_pairwise _ (sortStrings_pairwise l)

lemma mem_loadLines {c : String} {x : List Char} (hx : x ∈ loadLines c) :
    stripL x = x ∧ x ≠ [] ∧ '\n' ∉ x := by
  rw [loadLines, List.mem_dedup, List.mem_filter] at hx
  obtain ⟨hmem, hne⟩ := hx
  obtain ⟨y, hy, rfl⟩ := List.mem_map.mp hmem
  refine ⟨stripL_idem y, by simpa using hne, ?_⟩
  intro hnl
  exact splitSep_not_mem '\n' _ y hy (mem_of_mem_stripL hnl)

lemma load_save (l : List String)
    (hstrip : ∀ x ∈ l, stripL x.data = x.data)
    (hne : ∀ x ∈ l, x.data ≠ [])
    (hnl : ∀ x ∈ l, '\n' ∉ x.data)
    (hnd : (l.map String.data).Nodup) :
    load_domains (save_domains l) = sortStrings l := by
  have hdata : (save_domains l).data =
      (((sortStrings l).map String.data).map (fun d => d ++ ['\n'])).flatten := by
    rw [save_domains, List.map_map]
    rfl
  rw [load_domains, loadLines, hdata]
  have hnlS : ∀ d ∈ (sortStrings l).map String.data, '\n' ∉ d := by
    intro d hd
    obtain ⟨x, hx, rfl⟩ := List.mem_map.mp hd
    exact hnl x ((sortStrings_perm l).mem_iff.mp hx)
  rw [splitSep_flatten '\n' _ hnlS, List.map_append, List.filter_append]
  have hmapstrip : (((sortStrings l).map String.data).map stripL) =
      (sortStrings l).map String.data := by
    rw [List.map_map]
    exact List.map_congr_left
      (fun x hx => hstrip x ((sortStrings_perm l).mem_iff.mp hx))
  rw [hmapstrip]
  have hfil : (((sortStrings l).map String.data).filter (fun d => d != [])) =
      (sortStrings l).map String.data := by
    apply List.filter_eq_self.mpr
    intro a ha
    obtain ⟨x, hx, rfl⟩ := List.mem_map.mp ha
    simpa using hne x ((sortStrings_perm l).mem_iff.mp hx)
  rw [hfil]
  have htail : ((([[]] : List (List Char)).map stripL).filter (fun d => d != [])) = [] := rfl
  rw [htail, List.append_nil]
  have hndS : ((sortStrings l).map String.data).Nodup :=
    (((sortStrings_perm l).map String.data).nodup_iff).mpr hnd
  rw [List.dedup_eq_self.mpr hndS, List.map_map]
  calc (sortStrings l).map (fun x => String.mk (String.data x))
      = (sortStrings l).map id := List.map_congr_left (fun x _ => mk_data x)
    _ = sortStrings l := List.map_id _

/-- C8 counterexample: storage content `"a"` (no trailing newline) is changed
by a load/save round-trip, so `save(load(·))` is not the identity on storage
contents. -/
theorem save_load_not_identity :
    save_domains (load_domains "a") = "a\n" ∧ ("a\n" : String) ≠ "a" :=
  ⟨by decide, by decide⟩

/-- C8 amended: `save ∘ load` is idempotent as a function on storage contents
(one round-trip normalises the content — stripped, nonempty, sorted,
newline-terminated lines — and any further round-trip reproduces it
byte-identically); the round-trip is not the identity on arbitrary content. -/
theorem save_load_idempotent (c : String) :
    save_domains (load_domains (save_domains (load_domains c))) =
      save_domains (load_domains c) := by
  have hmem : ∀ x ∈ load_domains c, stripL x.data = x.data ∧ x.data ≠ [] ∧ '\n' ∉ x.data := by
    intro x hx
    obtain ⟨y, hy, rfl⟩ := List.mem_map.mp hx
    exact mem_loadLines hy
  have hnd : ((load_domains c).map String.data).Nodup := by
    have : (load_domains c).map String.data = loadLines c := map_data_mk (loadLines c)
    rw [this]
    exact List.nodup_dedup _
  rw [load_save (load_domains c) (fun x hx => (hmem x hx).1) (fun x hx => (hmem x hx).2.1)
    (fun x hx => (hmem x hx).2.2) hnd]
  rw [save_domains, save_domains, sortStrings_idem]

end PosterBot
